import Mathlib

/-!
Verification of the soong_zip archive-build pipeline (cmd/soong_zip/soong_zip.go).

This file gives a shallow embedding of the planner, the per-file compression
paths, the writer state machine and the directory recorder, and proves or
refutes the specification claims against it.

Conventions:
* Go byte slices are `List Nat` (each element a byte value; overflow is
  irrelevant because the source only moves bytes around).
* Go `uint32`/CRC arithmetic is `Nat` kept below 2^32 by construction.
* The external compress/flate writer is out of scope of the repository; it is
  abstracted as a function parameter `deflateFn dict data last`, and a concrete
  stand-in `flateModel` (modelled from the spec) is used for closed evaluation.
* Channels between one producer and one consumer are order-preserving, so a
  channel's traffic is modelled as the list of values it delivers.
-/

namespace SoongZip

/-- Block size used during parallel compression of a single file (source constant). -/
def parallelBlockSize : Nat := 1 * 1024 * 1024

/-- Minimum file size to use parallel compression (source constant). -/
def minParallelFileSize : Nat := parallelBlockSize * 6

/-- Size of the ZIP compression window, 32KB (source constant). -/
def windowSize : Nat := 32 * 1024

/-- ZIP compression methods used by the source (`zip.Store` = 0, `zip.Deflate` = 8).
`Store` is the zero value of `zip.FileHeader.Method`, which matters for entries
whose method is never assigned (directories and symlinks). -/
inductive Method where
  | Store
  | Deflate
deriving DecidableEq

/-- Go `os.ModeDir` bit, 2 ^ 31. -/
def modeDir : Nat := 2147483648

/-- Go `os.ModeSymlink` bit, 2 ^ 27. -/
def modeSymlink : Nat := 134217728

/-- True when the mode bits indicate a symlink. -/
def modeIsSymlink (m : Nat) : Bool := decide (m &&& modeSymlink ≠ 0)

/-- The fixed build time `time.Date(2009, 1, 1, ...)`, abstracted to an opaque-free
constant tag; every entry carries the same value, which is all the claims use. -/
def buildTime : Nat := 20090101

/-- The fields of `zip.FileHeader` the source reads or writes.  Fields the
source never assigns keep Go's zero values (`Method` 0 = Store, `CRC32` 0,
`UncompressedSize64` 0, mode bits 0). -/
structure FileHeader where
  name : String
  method : Method
  crc32 : Nat
  uncompressedSize : Nat
  mode : Nat
  modTime : Nat
deriving DecidableEq

/-- A `zipEntry`: a header plus the ordered sequence of block payload channels
(`futureReaders`).  A Go `nil` channel is `none` (directory entries); otherwise
the sequence of buffers the payload channels will deliver, in order. -/
structure ZipEntry where
  fh : FileHeader
  futureReaders : Option (List (List Nat))
deriving DecidableEq

/-! ### CRC-32/IEEE (hash/crc32), bit-level software implementation -/

/-- One shift-xor round of the reflected CRC-32/IEEE polynomial 0xEDB88320. -/
def crc32Round (c : Nat) : Nat :=
  if c % 2 = 1 then (c / 2) ^^^ 0xEDB88320 else c / 2

/-- Fold one byte into a CRC-32 accumulator (8 polynomial rounds). -/
def crc32Update (c b : Nat) : Nat :=
  (List.range 8).foldl (fun acc _ => crc32Round acc) (c ^^^ (b % 256))

/-- CRC-32/IEEE of a byte list, as computed by `crc32.NewIEEE` / `Sum32`. -/
def crc32 (bytes : List Nat) : Nat :=
  (bytes.foldl crc32Update 0xFFFFFFFF) ^^^ 0xFFFFFFFF

/-! ### The external deflate writer -/

/-- Modelled from the spec: stand-in for the external `compress/flate` writer
(not part of this repository).  Per the spec, after copying the input the
compressor emits a final block with the end-of-stream marker set when `last`,
and a sync-flush marker otherwise; the body is modelled as the raw bytes (an
incompressible worst case).  Used only to instantiate the abstract
`deflateFn` parameter at concrete inputs. -/
def flateModel (dict data : List Nat) (last : Bool) : List Nat :=
  data ++ (if last then [3, 0] else [0, 0, 255, 255])

/-! ### Small-file path: `compressWholeFile` -/

/-- Translation of `compressWholeFile`: compute CRC-32 and size over the whole
file, compress it as a single final block (`compressBlock(r, nil, true)`, here
`deflateFn [] content true`), then apply the store fallback: if
`uint64(compressed.Len()) < UncompressedSize64` keep Deflate with the
compressed buffer, otherwise rewrite the method to Store and substitute the
raw file bytes.  The entry carries exactly one payload channel. -/
def compressWholeFile (deflateFn : List Nat → List Nat → Bool → List Nat)
    (rel : String) (content : List Nat) : ZipEntry :=
  let compressed := deflateFn [] content true
  let fh : FileHeader :=
    { name := rel
      method := Method.Deflate
      crc32 := crc32 content
      uncompressedSize := content.length
      mode := 0
      modTime := buildTime }
  if compressed.length < content.length then
    { fh := fh, futureReaders := some [compressed] }
  else
    { fh := { fh with method := Method.Store }, futureReaders := some [content] }

/-! ### Large-file path: the block loop of `writeFile` -/

/-- A positional reader over one open file, modelling `os.File` together with
the `io.SectionReader`s taken over it.  `readSection off len` returns the bytes
delivered by `ioutil.ReadAll(io.NewSectionReader(r, off, len))` together with
the error that call reports (`none` on success). -/
structure FileReader where
  size : Nat
  readSection : Nat → Nat → List Nat × Option String

/-- The reader over an in-memory file: positional reads return the requested
section (clipped at end of file) and never fail. -/
def FileReader.fromContent (content : List Nat) : FileReader :=
  { size := content.length
    readSection := fun off len => ((content.drop off).take len, none) }

/-- One unit of parallel work handed to `compressPartialFile`: the block's
offset, the data its `SectionReader` covers, the dictionary read for it (absent
when `start < windowSize`), and the `last` flag. -/
structure Block where
  offset : Nat
  data : List Nat
  dict : Option (List Nat)
  last : Bool
deriving DecidableEq

/-- Number of iterations of the `for start := 0; start < fileSize;
start += parallelBlockSize` loop in `writeFile`. -/
def numBlocks (size : Nat) : Nat := (size + parallelBlockSize - 1) / parallelBlockSize

/-- Translation of the block-spawning loop of `writeFile` (large-file path).
Iteration `k` runs at `start = k * parallelBlockSize`; it takes a section
reader for `[start, start + parallelBlockSize)`, reads the preceding
`windowSize` bytes as dictionary when `start >= windowSize`, and computes
`last := !(start + parallelBlockSize < fileSize)`.  Note that the error of the
dictionary read is assigned to `err` in the source and then never examined:
only the partial data (`.1`) flows into the block. -/
def writeFileBlocks (r : FileReader) : List Block :=
  (List.range (numBlocks r.size)).map fun k =>
    let start := k * parallelBlockSize
    { offset := start
      data := (r.readSection start parallelBlockSize).1
      dict := if windowSize ≤ start
        then some ((r.readSection (start - windowSize) windowSize).1)
        else none
      last := !decide (start + parallelBlockSize < r.size) }

/-- Translation of the large-file branch of `writeFile` as a whole: it spawns
the CRC task and the block workers and then returns `nil` — the `err` captured
from the dictionary `ReadAll` is dropped on the floor, and nothing in this
branch posts to `z.errors`. -/
def writeFileLarge (r : FileReader) : List Block × Option String :=
  (writeFileBlocks r, none)

/-- A 10 MiB file whose read of the 32 KiB dictionary window preceding offset
4 MiB fails: the `ReadAll` returns a one-byte partial result `[42]` together
with an I/O error.  All other positional reads succeed (returning empty
sections keeps closed-term evaluation cheap; the oracle stands for a fault
injected filesystem). -/
def faultyReader : FileReader :=
  { size := 10485760
    readSection := fun off len =>
      if off = 4161536 ∧ len = windowSize then ([42], some "io error") else ([], none) }

/-! ### The writer state machine (`write`) -/

/-- The writer's loop state: the not-yet-dequeued promises (`z.writeOps`), the
promise whose header is awaited (`currentWriteOpChan`), the remaining payload
channels of the open entry (`currentReaders`), the payload channel currently
awaited (`currentReader`), and the bytes written to the archive so far. -/
structure WriterState where
  pending : List ZipEntry
  currentWriteOp : Option ZipEntry
  currentReaders : Option (List (List Nat))
  currentReader : Option (List Nat)
  output : List Nat
deriving DecidableEq

/-- One iteration of the writer's `select` loop.  The `if`/`else if` chain of
the source enables exactly one non-error channel per iteration, in this
priority order: a pending payload (`currentReader`), then the block-sequence
channel (`currentReaders`), then the header channel (`currentWriteOpChan`),
then the queue itself.  `hdr` abstracts the local-file-header bytes the
underlying zip library emits at `CreateHeader` / `CreateCompressedHeader`
(the sink itself copies payload bytes verbatim; sink close emits nothing in
this model).  Error-channel receipt aborts the loop and is treated separately
by the planner-side models. -/
def writerStep (hdr : FileHeader → List Nat) (s : WriterState) : WriterState :=
  match s.currentReader with
  | some buf => { s with output := s.output ++ buf, currentReader := none }
  | none =>
    match s.currentReaders with
    | some [] => { s with currentReaders := none }
    | some (r :: rest) => { s with currentReaders := some rest, currentReader := some r }
    | none =>
      match s.currentWriteOp with
      | some op =>
        { s with
          output := s.output ++ hdr op.fh
          currentReaders := op.futureReaders
          currentWriteOp := none }
      | none =>
        match s.pending with
        | op :: rest => { s with pending := rest, currentWriteOp := some op }
        | [] => s

/-- The writer is done: the queue is closed and drained and no entry is open. -/
def writerDone (s : WriterState) : Bool :=
  decide (s.pending = [] ∧ s.currentWriteOp = none ∧
    s.currentReaders = none ∧ s.currentReader = none)

/-- Iterate the writer loop. -/
def writerRun (hdr : FileHeader → List Nat) : Nat → WriterState → WriterState
  | 0, s => s
  | fuel + 1, s => if writerDone s then s else writerRun hdr fuel (writerStep hdr s)

/-- Number of loop iterations needed to consume one promise. -/
def entrySteps (e : ZipEntry) : Nat :=
  2 + match e.futureReaders with
      | none => 0
      | some rs => 1 + 2 * rs.length

/-- Loop iterations remaining from a given state (the writer's step count is
exactly this, so it serves as fuel). -/
def writerMeasure (s : WriterState) : Nat :=
  (s.pending.map entrySteps).sum +
    (match s.currentWriteOp with
     | some e => entrySteps e - 1
     | none => 0) +
    (match s.currentReaders with
     | some rs => 1 + 2 * rs.length
     | none => 0) +
    (match s.currentReader with
     | some _ => 1
     | none => 0)

/-- The bytes one promise contributes to the archive: its local header followed
by its block payloads in channel order. -/
def entryBytes (hdr : FileHeader → List Nat) (e : ZipEntry) : List Nat :=
  hdr e.fh ++ (e.futureReaders.getD []).flatten

/-- The initial writer state over a submission queue. -/
def writerInit (ops : List ZipEntry) : WriterState :=
  { pending := ops, currentWriteOp := none, currentReaders := none,
    currentReader := none, output := [] }

/-- Run the writer over a submission queue to completion (the happy path of
`write`: producers resolve every promise, no error is posted). -/
def writeArchive (hdr : FileHeader → List Nat) (ops : List ZipEntry) : WriterState :=
  writerRun hdr (writerMeasure (writerInit ops)) (writerInit ops)

/-! ### Directory recorder (`writeDirectory`) -/

/-- Go `filepath.Split` restricted to its first component: everything up to and
including the final `/` (the whole string when it already ends in `/`, empty
when it contains no `/`). -/
def goSplitDir (s : String) : String :=
  ⟨((s.data.reverse).dropWhile (fun c => c ≠ '/')).reverse⟩

/-- Does the string end in a slash (`strings.HasSuffix(dir, "/")`)? -/
def hasSlashSuffix (s : String) : Bool := decide (s.data.getLast? = some '/')

/-- The directory entry synthesized for `dir`: zero payload (`futureReaders`
is Go `nil`), mode `0700 | os.ModeDir`, fixed build time. -/
def dirEntry (dir : String) : ZipEntry :=
  { fh :=
      { name := dir
        method := Method.Store
        crc32 := 0
        uncompressedSize := 0
        mode := 448 ||| modeDir
        modTime := buildTime }
    futureReaders := none }

/-- Translation of the loop of `writeDirectory`:
`for dir != "" && dir != "./" && !createdDirs[dir]` marks `dir` created,
enqueues its entry, then sets `dir, _ = filepath.Split(dir)`.  Returns the
entries enqueued (in order) and the updated `createdDirs` set.  Fuel: each
iteration either strictly shortens `dir` (when it does not end in `/`) or
leaves it unchanged — and an unchanged `dir` was just added to `createdDirs`,
so the following test stops the loop; hence `dir.length + 2` iterations always
suffice and the fuel never runs out. -/
def writeDirectoryAux : Nat → List String → String → List ZipEntry × List String
  | 0, created, _ => ([], created)
  | fuel + 1, created, dir =>
    if dir ≠ "" ∧ dir ≠ "./" ∧ ¬(dir ∈ created) then
      let rest := writeDirectoryAux fuel (dir :: created) (goSplitDir dir)
      (dirEntry dir :: rest.1, rest.2)
    else ([], created)

/-- Translation of `writeDirectory`: append a trailing slash when missing, then
run the loop. -/
def writeDirectory (created : List String) (dir : String) : List ZipEntry × List String :=
  let d := if dir ≠ "" ∧ ¬hasSlashSuffix dir then dir ++ "/" else dir
  writeDirectoryAux (d.length + 2) created d

/-! ### Symlinks (`writeSymlink`) -/

/-- Translation of `writeSymlink`: with `-d`, first record the parent directory
of `rel`; then synthesize the symlink entry — name `rel`, fixed time, mode
`0700 | os.ModeSymlink`, one payload channel carrying the link target bytes.
No other header field is assigned, so `Method`, `CRC32` and
`UncompressedSize64` keep Go's zero values.  (The `rateLimit.Release(-len(dest))`
pre-credit touches only the rate limiter and is not needed by the claims.)
Returns the entries enqueued, in queue order, and the updated directory set. -/
def writeSymlink (directories : Bool) (created : List String) (rel : String)
    (dest : List Nat) : List ZipEntry × List String :=
  let dirOut := if directories then writeDirectory created (goSplitDir rel) else ([], created)
  let symEntry : ZipEntry :=
    { fh :=
        { name := rel
          method := Method.Store
          crc32 := 0
          uncompressedSize := 0
          mode := 448 ||| modeSymlink
          modTime := buildTime }
      futureReaders := some [dest] }
  (dirOut.1 ++ [symEntry], dirOut.2)

/-! ### Entry names (`writeRelFile`): `filepath.Clean` and `filepath.Rel` -/

/-- A slash-separated Go path, split at separators: `abs` records a leading
`/`, `comps` the raw components in between (which may be `""`, `"."` or
`".."`).  On Linux there are no volume names, and rendering back to a string
joins with `/`. -/
structure GoPath where
  abs : Bool
  comps : List String
deriving DecidableEq

/-- One step of `filepath.Clean`'s element scan, operating on the output stack
(head = most recent element).  Empty and `.` elements are dropped; `..` pops a
normal element, is itself pushed when nothing can be popped in a relative path
(`out` empty or all `..`), and is dropped at the root of an absolute path (for
an absolute path a `..` can never be on the stack, so the `o = ".."` branch is
unreachable there); any other element is pushed. -/
def cleanStep (abs : Bool) (out : List String) (c : String) : List String :=
  if c = "" ∨ c = "." then out
  else if c = ".." then
    match out with
    | [] => if abs then [] else [".."]
    | o :: os => if o = ".." then ".." :: o :: os else os
  else c :: out

/-- The component list of `filepath.Clean`: fold the scan over the raw
components.  An empty result renders as `"."` for a relative path and `"/"`
for an absolute one. -/
def cleanComps (abs : Bool) (l : List String) : List String :=
  (l.foldl (cleanStep abs) []).reverse

/-- `filepath.Clean` on a parsed path. -/
def cleanPath (p : GoPath) : GoPath :=
  { abs := p.abs, comps := cleanComps p.abs p.comps }

/-- Drop the longest common element run of two lists, returning both
remainders — the element walk of `filepath.Rel` positioning `base` and `targ`
at their first differing elements. -/
def dropCommon : List String → List String → List String × List String
  | a :: as, b :: bs =>
    if a = b then dropCommon as bs else (a :: as, b :: bs)
  | as, bs => (as, bs)

/-- Translation of `filepath.Rel(basepath, targpath)` on Linux (volume names
empty): clean both paths; equal cleaned paths yield `"."`; mixed
absolute/relative is an error; a cleaned relative `base` of `"."` contributes
no elements, while a cleaned relative `targ` of `"."` is the single element
`"."` (only `base` is special-cased in the source); after dropping the common
element run, a remaining leading `..` in `base` is an error, and otherwise the
result is one `..` per remaining `base` element followed by the remaining
`targ` elements. -/
def relGo (basep targp : GoPath) : Option (List String) :=
  let base := cleanPath basep
  let targ := cleanPath targp
  if base = targ then some ["."]
  else if ¬(base.abs = targ.abs) then none
  else
    let baseE := base.comps
    let targE := if targ.abs = false ∧ targ.comps = [] then ["."] else targ.comps
    let rem := dropCommon baseE targE
    if rem.1.head? = some ".." then none
    else some (List.replicate rem.1.length ".." ++ rem.2)

/-- Translation of the name computation of `writeRelFile`: the file argument
is cleaned (`file = filepath.Clean(file)`), then `filepath.Rel(root, file)`
produces the entry name (the root was itself stored cleaned by `fileArgs.Set`,
which `relGo`'s internal cleaning reproduces). -/
def writeRelFileName (root file : GoPath) : Option (List String) :=
  relGo root (cleanPath file)

/-- The bytes the writer has yet to emit from a given state: the awaited
payload, the payloads of the open entry, the not-yet-opened current promise,
and everything still in the queue, in that order. -/
def writerRemaining (hdr : FileHeader → List Nat) (s : WriterState) : List Nat :=
  (match s.currentReader with
   | some b => b
   | none => []) ++
  ((match s.currentReaders with
    | some rs => rs.flatten
    | none => []) ++
  ((match s.currentWriteOp with
    | some e => entryBytes hdr e
    | none => []) ++
  (s.pending.map (entryBytes hdr)).flatten))

/-- The link target `target/path` of spec scenario 2, as bytes. -/
def targetPathBytes : List Nat := [116, 97, 114, 103, 101, 116, 47, 112, 97, 116, 104]

/-- The block at index 1 of a 6 MiB all-zero file, instantiating claim C5. -/
def c5Block : Block :=
  { offset := 1048576
    data := ((List.replicate 6291456 (0 : Nat)).drop 1048576).take 1048576
    dict := some (((List.replicate 6291456 (0 : Nat)).drop 1015808).take 32768)
    last := false }

/-- A path component that is neither empty nor `.` nor `..`. -/
def noSpecial (c : String) : Prop := c ≠ "" ∧ c ≠ "." ∧ c ≠ ".."

/-! ## Helper lemmas -/

/-- No entry produced by the `writeDirectory` loop carries the symlink mode
bit: every synthesized directory entry has mode `0700 | os.ModeDir`. -/
theorem dirAux_filter_symlink (fuel : Nat) :
    ∀ (created : List String) (dir : String),
      ((writeDirectoryAux fuel created dir).1.filter fun e => modeIsSymlink e.fh.mode) = [] := by
  induction fuel with
  | zero => intro created dir; simp [writeDirectoryAux]
  | succ n ih =>
    intro created dir
    rw [writeDirectoryAux]
    split
    · simp [List.filter_cons, (by decide : modeIsSymlink (448 ||| modeDir) = false), dirEntry, ih]
    · simp

/-! ## Claims -/

/-- Claim C1, counterexample.  The claim asserts that a zero-length regular
file (scenario 1's `e.txt`) is written with method Deflate.  On the code this
is false: for an empty file `uint64(compressed.Len()) < UncompressedSize64`
compares against 0 and always fails, so the store fallback of
`compressWholeFile` rewrites the method to Store. -/
theorem claim1_counterexample :
    ¬((compressWholeFile flateModel "e.txt" []).fh.method = Method.Deflate) := by
  decide

/-- Claim C1, amended.  For every zero-length regular file (and any behaviour
of the deflate compressor) the store fallback of `compressWholeFile` fires,
so the emitted entry uses method Store and its single payload is the empty
byte string. -/
theorem claim1_empty_file_is_store (deflateFn : List Nat → List Nat → Bool → List Nat)
    (rel : String) :
    (compressWholeFile deflateFn rel []).fh.method = Method.Store ∧
      (compressWholeFile deflateFn rel []).futureReaders = some [[]] := by
  unfold compressWholeFile
  simp

set_option maxRecDepth 10000 in
/-- Claim C2, counterexample.  The claim asserts the symlink entry is enqueued
with its CRC-32 field already filled in (computed over the link target).  On
the code `writeSymlink` never assigns `CRC32`: for the target `target/path`
the enqueued entry carries CRC 0, while the CRC-32 of the target is nonzero. -/
theorem claim2_counterexample :
    ((writeSymlink false [] "link" targetPathBytes).1.map fun e => e.fh.crc32) = [0] ∧
      crc32 targetPathBytes ≠ 0 := by
  constructor
  · decide
  · decide

/-- Claim C2, amended.  For every symlink input the planner enqueues exactly
one entry whose mode bits indicate a symlink; it has method Store (the Go zero
value — `writeSymlink` never assigns a method) and its single payload is the
link-target string, but its CRC-32 field is still zero at enqueue time — the
CRC is not pre-filled; the zip library computes it later while writing this
non-precompressed entry. -/
theorem claim2_symlink_entry (directories : Bool) (created : List String)
    (rel : String) (dest : List Nat) :
    ((writeSymlink directories created rel dest).1.filter fun e => modeIsSymlink e.fh.mode) =
      [{ fh :=
           { name := rel
             method := Method.Store
             crc32 := 0
             uncompressedSize := 0
             mode := 448 ||| modeSymlink
             modTime := buildTime }
         futureReaders := some [dest] }] := by
  unfold writeSymlink
  cases directories <;>
    simp [writeDirectory, List.filter_append, dirAux_filter_symlink,
      (by decide : modeIsSymlink (448 ||| modeSymlink) = true)]

set_option maxRecDepth 10000 in
/-- Claim C3, failing behaviour.  In the large-file path the error of the
32 KiB dictionary-window read is assigned to `err` and never examined:
for a 10 MiB file whose window read before offset 4 MiB fails (returning the
partial data `[42]` plus an error), `writeFile` still returns success and the
block at offset 4 MiB is compressed with the truncated dictionary — the error
is neither returned nor posted, contradicting the claim that every read error
fails the batch. -/
theorem claim3_dict_read_error_dropped :
    (writeFileLarge faultyReader).2 = none ∧
      ((writeFileBlocks faultyReader).getD 4 ⟨0, [], none, false⟩).dict = some [42] := by
  constructor
  · rfl
  · decide

/-- Claim C4.  For every regular file smaller than `minParallelFileSize`,
`compressWholeFile` keeps method Deflate with the compressed buffer exactly
when the deflate output is strictly smaller than the file; otherwise it
rewrites the method to Store and delivers the raw file bytes as the payload. -/
theorem claim4_store_fallback (deflateFn : List Nat → List Nat → Bool → List Nat)
    (rel : String) (content : List Nat)
    (hsmall : content.length < minParallelFileSize) :
    (compressWholeFile deflateFn rel content).fh.method =
        (if (deflateFn [] content true).length < content.length
         then Method.Deflate else Method.Store) ∧
      (compressWholeFile deflateFn rel content).futureReaders =
        some [if (deflateFn [] content true).length < content.length
              then deflateFn [] content true else content] := by
  unfold compressWholeFile
  by_cases h : (deflateFn [] content true).length < content.length <;> simp [h]

/-- Claim C4, witness: a 2-byte file under an incompressible deflate model
takes the Store branch. -/
theorem claim4_witness :
    ([65, 66] : List Nat).length < minParallelFileSize ∧
      ((compressWholeFile flateModel "small.txt" [65, 66]).fh.method =
          (if (flateModel [] [65, 66] true).length < ([65, 66] : List Nat).length
           then Method.Deflate else Method.Store) ∧
        (compressWholeFile flateModel "small.txt" [65, 66]).futureReaders =
          some [if (flateModel [] [65, 66] true).length < ([65, 66] : List Nat).length
                then flateModel [] [65, 66] true else [65, 66]]) :=
  ⟨by decide, claim4_store_fallback flateModel "small.txt" [65, 66] (by decide)⟩

/-- Claim C8, failing behaviour.  With directory emission enabled, adding a
file under `a/b/` is claimed to submit every ancestor (`a/`, `a/b/`) exactly
once.  On the code `filepath.Split` returns a trailing-slash path unchanged,
so the `writeDirectory` loop marks `a/b/` created, re-splits to the same
string and stops: only `a/b/` is ever submitted and the ancestor `a/` never
appears, no matter how many files reference it. -/
theorem claim8_ancestors_not_submitted :
    (writeDirectory [] "a/b/").1 = [dirEntry "a/b/"] ∧
      dirEntry "a/" ∉ (writeDirectory [] "a/b/").1 ∧
      (writeDirectory (writeDirectory [] "a/b/").2 "a/b/").1 = [] := by
  refine ⟨by decide, by decide, by decide⟩

/-- Claim C10, failing behaviour.  The claim says missing ancestors are
enqueued deepest-first, the child entry appearing before its parent.  On the
code the parent entries are never enqueued at all: synthesizing directories
for `a/b/c/` submits only `a/b/c/` — neither `a/b/` nor `a/` is submitted
(so in particular no parent entry follows the child). -/
theorem claim10_parents_never_enqueued :
    ((writeDirectory [] "a/b/c/").1.map fun e => e.fh.name) = ["a/b/c/"] ∧
      dirEntry "a/b/" ∉ (writeDirectory [] "a/b/c/").1 ∧
      dirEntry "a/" ∉ (writeDirectory [] "a/b/c/").1 := by
  refine ⟨by decide, by decide, by decide⟩

/-- Claim C5.  In the large-file path, a block's dictionary is absent exactly
when its offset is 0, and for every block at a nonzero offset the dictionary
is precisely the last `windowSize` bytes of the file region preceding the
block's offset. -/
theorem claim5_block_dictionary (content : List Nat) (b : Block)
    (hsize : minParallelFileSize ≤ content.length)
    (hmem : b ∈ writeFileBlocks (FileReader.fromContent content)) :
    (b.dict = none ↔ b.offset = 0) ∧
      (b.offset ≠ 0 →
        b.dict = some ((content.take b.offset).drop (b.offset - windowSize))) := by
  unfold writeFileBlocks at hmem
  rw [List.mem_map] at hmem
  obtain ⟨k, hk, rfl⟩ := hmem
  have hws : windowSize = 32768 := by norm_num [windowSize]
  have hpb : parallelBlockSize = 1048576 := by norm_num [parallelBlockSize]
  dsimp only
  rw [hws, hpb]
  by_cases h0 : k = 0
  · subst h0
    norm_num
  · have h1 : 1 ≤ k := Nat.one_le_iff_ne_zero.mpr h0
    have hge : 32768 ≤ k * 1048576 := by omega
    have hne : ¬(k * 1048576 = 0) := by omega
    rw [if_pos hge]
    refine ⟨by simp [hne], fun _ => ?_⟩
    dsimp only [FileReader.fromContent]
    rw [List.drop_take]
    rw [show k * 1048576 - (k * 1048576 - 32768) = 32768 by omega]

/-- Claim C5, witness at a concrete 6 MiB input. -/
theorem claim5_witness :
    minParallelFileSize ≤ (List.replicate 6291456 (0 : Nat)).length ∧
      c5Block ∈ writeFileBlocks (FileReader.fromContent (List.replicate 6291456 (0 : Nat))) ∧
      ((c5Block.dict = none ↔ c5Block.offset = 0) ∧
        (c5Block.offset ≠ 0 →
          c5Block.dict =
            some (((List.replicate 6291456 (0 : Nat)).take c5Block.offset).drop
              (c5Block.offset - windowSize)))) := by
  have h1 : minParallelFileSize ≤ (List.replicate 6291456 (0 : Nat)).length := by
    rw [List.length_replicate]
    norm_num [minParallelFileSize, parallelBlockSize]
  have h2 : c5Block ∈ writeFileBlocks (FileReader.fromContent (List.replicate 6291456 (0 : Nat))) := by
    unfold writeFileBlocks
    rw [List.mem_map]
    refine ⟨1, ?_, ?_⟩
    · rw [List.mem_range]
      dsimp only [FileReader.fromContent]
      rw [List.length_replicate]
      norm_num [numBlocks, parallelBlockSize]
    · dsimp only [FileReader.fromContent]
      rw [List.length_replicate]
      norm_num [c5Block, windowSize, parallelBlockSize]
  exact ⟨h1, h2, claim5_block_dictionary _ _ h1 h2⟩

/-- Claim C6.  For every file on the large-file path, the `last` flags of its
blocks are `false` everywhere except on the final block (so exactly one block
is compressed as a final deflate block, the rest ending in a sync-flush), and
the `last` block covers the end of the file: its offset plus its data length
equals the file size. -/
theorem claim6_single_last_block (content : List Nat)
    (hsize : minParallelFileSize ≤ content.length) :
    ((writeFileBlocks (FileReader.fromContent content)).map Block.last =
        List.replicate (numBlocks content.length - 1) false ++ [true]) ∧
      (∀ b ∈ writeFileBlocks (FileReader.fromContent content),
        b.last = true → b.offset + b.data.length = content.length) := by
  have hsz : 6291456 ≤ content.length := by
    simpa [minParallelFileSize, parallelBlockSize] using hsize
  have hpb : parallelBlockSize = 1048576 := by norm_num [parallelBlockSize]
  have hnum : numBlocks content.length = (content.length + 1048575) / 1048576 := by
    norm_num [numBlocks, parallelBlockSize]
  have hsq : (FileReader.fromContent content).size = content.length := rfl
  have hread : ∀ off len : Nat,
      ((FileReader.fromContent content).readSection off len).1 = (content.drop off).take len :=
    fun off len => rfl
  constructor
  · unfold writeFileBlocks
    rw [List.map_map, hsq]
    apply List.ext_getElem
    · rw [List.length_map, List.length_range, List.length_append,
        List.length_replicate, List.length_singleton]
      rw [hnum]
      omega
    · intro i h1 h2
      rw [List.getElem_map, List.getElem_range]
      dsimp only [Function.comp]
      rw [hpb]
      by_cases hi : i < numBlocks content.length - 1
      · rw [List.getElem_append_left (by rw [List.length_replicate]; exact hi)]
        rw [List.getElem_replicate]
        have hlt : i * 1048576 + 1048576 < content.length := by
          rw [hnum] at hi
          omega
        simp [hlt]
      · have hin : i < numBlocks content.length - 1 + 1 := by
          rw [List.length_append, List.length_replicate, List.length_singleton] at h2
          exact h2
        have hieq : i = numBlocks content.length - 1 := by omega
        rw [List.getElem_append_right (by rw [List.length_replicate]; omega)]
        have hnlt : ¬(i * 1048576 + 1048576 < content.length) := by
          rw [hnum] at hieq
          omega
        simp [hnlt, List.length_replicate, hieq]
        rw [hnum]
        omega
  · intro b hmem hlast
    unfold writeFileBlocks at hmem
    rw [List.mem_map] at hmem
    obtain ⟨k, hk, rfl⟩ := hmem
    rw [List.mem_range, hsq] at hk
    dsimp only at hlast ⊢
    rw [hsq, hpb] at hlast
    have hL : ¬(k * 1048576 + 1048576 < content.length) := by
      simpa using hlast
    rw [hread, List.length_take, List.length_drop, hpb]
    rw [hnum] at hk
    omega

/-- Claim C6, witness at a concrete 6 MiB input. -/
theorem claim6_witness :
    minParallelFileSize ≤ (List.replicate 6291456 (0 : Nat)).length ∧
      (((writeFileBlocks (FileReader.fromContent (List.replicate 6291456 (0 : Nat)))).map
            Block.last =
          List.replicate (numBlocks (List.replicate 6291456 (0 : Nat)).length - 1) false ++
            [true]) ∧
        (∀ b ∈ writeFileBlocks (FileReader.fromContent (List.replicate 6291456 (0 : Nat))),
          b.last = true →
            b.offset + b.data.length = (List.replicate 6291456 (0 : Nat)).length)) := by
  have h1 : minParallelFileSize ≤ (List.replicate 6291456 (0 : Nat)).length := by
    rw [List.length_replicate]
    norm_num [minParallelFileSize, parallelBlockSize]
  exact ⟨h1, claim6_single_last_block _ h1⟩

/-- Every promise costs at least the dequeue and open iterations. -/
theorem entrySteps_ge (e : ZipEntry) : 2 ≤ entrySteps e := by
  unfold entrySteps
  cases e.futureReaders <;> omega

/-- A state with no remaining loop iterations is a finished state. -/
theorem measure_zero_done (s : WriterState) (hm : writerMeasure s = 0) :
    writerDone s = true := by
  obtain ⟨p, cwo, crs, cr, o⟩ := s
  unfold writerMeasure at hm
  unfold writerDone
  cases cr with
  | some b => dsimp only at hm; omega
  | none =>
  cases crs with
  | some rs => dsimp only at hm; omega
  | none =>
  cases cwo with
  | some e =>
    dsimp only at hm
    have := entrySteps_ge e
    omega
  | none =>
  cases p with
  | cons e p' =>
    dsimp only at hm
    rw [List.map_cons, List.sum_cons] at hm
    have := entrySteps_ge e
    omega
  | nil => simp

/-- A finished writer has nothing left to emit. -/
theorem done_remaining (hdr : FileHeader → List Nat) (s : WriterState)
    (hd : writerDone s = true) : writerRemaining hdr s = [] := by
  unfold writerDone at hd
  rw [decide_eq_true_eq] at hd
  obtain ⟨h1, h2, h3, h4⟩ := hd
  unfold writerRemaining
  rw [h1, h2, h3, h4]
  simp

/-- Each loop iteration consumes exactly one unit of the measure. -/
theorem step_measure (hdr : FileHeader → List Nat) (s : WriterState)
    (hd : ¬ writerDone s = true) :
    writerMeasure (writerStep hdr s) + 1 = writerMeasure s := by
  obtain ⟨p, cwo, crs, cr, o⟩ := s
  cases cr with
  | some b => simp [writerStep, writerMeasure]
  | none =>
  cases crs with
  | some rs =>
    cases rs with
    | nil => simp [writerStep, writerMeasure]
    | cons r rest => simp [writerStep, writerMeasure]; omega
  | none =>
  cases cwo with
  | some e =>
    have := entrySteps_ge e
    cases hfr : e.futureReaders with
    | some rs => simp [writerStep, writerMeasure, entrySteps, hfr]; omega
    | none => simp [writerStep, writerMeasure, entrySteps, hfr]
  | none =>
  cases p with
  | cons e p' =>
    have := entrySteps_ge e
    simp [writerStep, writerMeasure]
    omega
  | nil =>
    exact absurd (by simp [writerDone]) hd

/-- Each loop iteration preserves written-plus-remaining bytes. -/
theorem step_remaining (hdr : FileHeader → List Nat) (s : WriterState)
    (hd : ¬ writerDone s = true) :
    (writerStep hdr s).output ++ writerRemaining hdr (writerStep hdr s) =
      s.output ++ writerRemaining hdr s := by
  obtain ⟨p, cwo, crs, cr, o⟩ := s
  cases cr with
  | some b => simp [writerStep, writerRemaining]
  | none =>
  cases crs with
  | some rs =>
    cases rs with
    | nil => simp [writerStep, writerRemaining]
    | cons r rest => simp [writerStep, writerRemaining]
  | none =>
  cases cwo with
  | some e =>
    cases hfr : e.futureReaders with
    | some rs => simp [writerStep, writerRemaining, entryBytes, hfr]
    | none => simp [writerStep, writerRemaining, entryBytes, hfr]
  | none =>
  cases p with
  | cons e p' => simp [writerStep, writerRemaining]
  | nil =>
    exact absurd (by simp [writerDone]) hd

/-- Running the writer with enough fuel appends exactly the remaining bytes. -/
theorem writerRun_output (hdr : FileHeader → List Nat) :
    ∀ (n : Nat) (s : WriterState), writerMeasure s ≤ n →
      (writerRun hdr n s).output = s.output ++ writerRemaining hdr s := by
  intro n
  induction n with
  | zero =>
    intro s hm
    have hd : writerDone s = true := measure_zero_done s (by omega)
    rw [writerRun, done_remaining hdr s hd, List.append_nil]
  | succ n ih =>
    intro s hm
    by_cases hd : writerDone s = true
    · rw [writerRun, if_pos hd, done_remaining hdr s hd, List.append_nil]
    · rw [writerRun, if_neg hd]
      have h1 := step_measure hdr s hd
      rw [ih (writerStep hdr s) (by omega)]
      exact step_remaining hdr s hd

/-- Claim C7.  Archive order equals submission order: the bytes the writer
emits are exactly the concatenation, in queue order, of each promise's header
followed by its block payloads in the order their channels were appended —
all bytes of an earlier promise precede any byte of a later one.  Moreover
the loop dequeues a new write op only when no payload, no block sequence and
no header of a current entry is still pending (in every other state the
queue is untouched). -/
theorem claim7_archive_order (hdr : FileHeader → List Nat) (ops : List ZipEntry) :
    (writeArchive hdr ops).output = (ops.map (entryBytes hdr)).flatten ∧
      (∀ s : WriterState,
        (writerStep hdr s).pending = s.pending ∨
          (s.currentReader = none ∧ s.currentReaders = none ∧ s.currentWriteOp = none)) := by
  constructor
  · unfold writeArchive
    rw [writerRun_output hdr _ _ (Nat.le_refl _)]
    simp [writerInit, writerRemaining]
  · intro s
    obtain ⟨p, cwo, crs, cr, o⟩ := s
    cases cr with
    | some b => left; simp [writerStep]
    | none =>
    cases crs with
    | some rs =>
      cases rs with
      | nil => left; simp [writerStep]
      | cons r rest => left; simp [writerStep]
    | none =>
    cases cwo with
    | some e => left; simp [writerStep]
    | none => right; exact ⟨rfl, rfl, rfl⟩

/-- Invariant of `filepath.Clean`'s element scan: the stack always consists of
normal components on top of a (relative-only) run of `..`. -/
theorem cleanStack_shape (abs : Bool) :
    ∀ (l out r : List String) (k : Nat),
      out = r ++ List.replicate k ".." →
      (∀ c ∈ r, noSpecial c) →
      (abs = true → k = 0) →
      ∃ r' k', l.foldl (cleanStep abs) out = r' ++ List.replicate k' ".." ∧
        (∀ c ∈ r', noSpecial c) ∧ (abs = true → k' = 0) := by
  intro l
  induction l with
  | nil =>
    intro out r k h1 h2 h3
    exact ⟨r, k, by simpa using h1, h2, h3⟩
  | cons c cs ih =>
    intro out r k h1 h2 h3
    rw [List.foldl_cons]
    by_cases hc1 : c = "" ∨ c = "."
    · rw [show cleanStep abs out c = out from by simp [cleanStep, hc1]]
      exact ih out r k h1 h2 h3
    · push_neg at hc1
      by_cases hc2 : c = ".."
      · subst hc2
        cases r with
        | nil =>
          simp only [List.nil_append] at h1
          subst h1
          cases k with
          | zero =>
            by_cases habs : abs = true
            · rw [show cleanStep abs (List.replicate 0 "..") ".." = [] from by
                simp [cleanStep, habs]]
              exact ih [] [] 0 (by simp) (by simp) (fun _ => rfl)
            · rw [show cleanStep abs (List.replicate 0 "..") ".." = [".."] from by
                simp [cleanStep, habs]]
              exact ih [".."] [] 1 (by simp) (by simp) (fun hco => absurd hco habs)
          | succ n =>
            rw [show cleanStep abs (List.replicate (n + 1) "..") ".." =
                [] ++ List.replicate (n + 2) ".." from by
              simp [cleanStep, List.replicate_succ]]
            exact ih _ [] (n + 2) rfl (by simp)
              (fun habs => absurd (h3 habs) (by omega))
        | cons r0 r' =>
          have hr0 : noSpecial r0 := h2 r0 (List.mem_cons_self r0 r')
          rw [List.cons_append] at h1
          subst h1
          rw [show cleanStep abs (r0 :: (r' ++ List.replicate k "..")) ".." =
              r' ++ List.replicate k ".." from by simp [cleanStep, hr0.2.2]]
          exact ih _ r' k rfl (fun d hd => h2 d (List.mem_cons_of_mem _ hd)) h3
      · rw [show cleanStep abs out c = c :: out from by
          simp [cleanStep, hc1.1, hc1.2, hc2]]
        refine ih (c :: out) (c :: r) k (by rw [h1, List.cons_append]) ?_ h3
        intro d hd
        rcases List.mem_cons.mp hd with hd | hd
        · subst hd
          exact ⟨hc1.1, hc1.2, hc2⟩
        · exact h2 d hd

/-- The components of a cleaned path are a leading run of `..` (empty for an
absolute path) followed by normal components. -/
theorem cleanComps_shape (abs : Bool) (l : List String) :
    ∃ k rest, cleanComps abs l = List.replicate k ".." ++ rest ∧
      (∀ c ∈ rest, noSpecial c) ∧ (abs = true → k = 0) := by
  obtain ⟨r', k', h1, h2, h3⟩ :=
    cleanStack_shape abs l [] [] 0 (by simp) (by simp) (fun _ => rfl)
  refine ⟨k', r'.reverse, ?_, ?_, h3⟩
  · unfold cleanComps
    rw [h1, List.reverse_append, List.reverse_replicate]
  · intro c hc
    exact h2 c (List.mem_reverse.mp hc)

/-- The target remainder of the element walk is a suffix of the target. -/
theorem dropCommon_snd_suffix : ∀ (a b : List String), (dropCommon a b).2 <:+ b := by
  intro a
  induction a with
  | nil =>
    intro b
    cases b <;> simp [dropCommon]
  | cons x xs ih =>
    intro b
    cases b with
    | nil => simp [dropCommon]
    | cons y ys =>
      by_cases h : x = y
      · rw [show dropCommon (x :: xs) (y :: ys) = dropCommon xs ys from by
          simp [dropCommon, h]]
        exact (ih ys).trans (List.suffix_cons y ys)
      · rw [show dropCommon (x :: xs) (y :: ys) = (x :: xs, y :: ys) from by
          simp [dropCommon, h]]

/-- A suffix of a dotdot-run-plus-normal-components list has the same shape. -/
theorem suffix_of_shape (s rest : List String) (k : Nat)
    (hs : s <:+ List.replicate k ".." ++ rest)
    (hrest : ∀ c ∈ rest, noSpecial c) :
    ∃ k' rest', s = List.replicate k' ".." ++ rest' ∧ (∀ c ∈ rest', noSpecial c) := by
  obtain ⟨t, ht⟩ := hs
  have hdrop : s = (List.replicate k ".." ++ rest).drop t.length := by
    rw [← ht, List.drop_left]
  rw [List.drop_append_eq_append_drop, List.drop_replicate, List.length_replicate] at hdrop
  exact ⟨k - t.length, rest.drop (t.length - k), hdrop,
    fun c hc => hrest c (List.drop_subset _ _ hc)⟩

/-- Shape of `relGo`'s result when the cleaned target has components. -/
theorem relShapeNormal (bE tE : List String) (comps : List String)
    (hcomps : List.replicate (dropCommon bE tE).1.length ".." ++ (dropCommon bE tE).2 = comps)
    (tShape : ∃ j rest0, tE = List.replicate j ".." ++ rest0 ∧ (∀ c ∈ rest0, noSpecial c)) :
    (∀ c ∈ comps, c ≠ "") ∧
      (∃ k rest, comps = List.replicate k ".." ++ rest ∧ ".." ∉ rest) ∧
      ("." ∈ comps → ∃ k, comps = List.replicate k ".." ++ ["."]) := by
  obtain ⟨j, rest0, htE, hns⟩ := tShape
  subst htE
  obtain ⟨k', rest', hsnd, hnsr⟩ :=
    suffix_of_shape _ _ _ (dropCommon_snd_suffix bE (List.replicate j ".." ++ rest0)) hns
  subst hcomps
  rw [hsnd, ← List.append_assoc, ← List.replicate_add]
  refine ⟨?_, ?_, ?_⟩
  · intro c hc
    rcases List.mem_append.mp hc with hc | hc
    · rw [List.eq_of_mem_replicate hc]
      decide
    · exact (hnsr c hc).1
  · exact ⟨_, rest', rfl, fun hmem => (hnsr ".." hmem).2.2 rfl⟩
  · intro hdot
    rcases List.mem_append.mp hdot with hc | hc
    · exact absurd (List.eq_of_mem_replicate hc) (by decide)
    · exact absurd rfl (hnsr "." hc).2.1

/-- Shape of `relGo`'s result when the cleaned relative target is `.`. -/
theorem relShapeDot (bE : List String) (comps : List String)
    (hcomps : List.replicate (dropCommon bE ["."]).1.length ".." ++ (dropCommon bE ["."]).2 = comps) :
    (∀ c ∈ comps, c ≠ "") ∧
      (∃ k rest, comps = List.replicate k ".." ++ rest ∧ ".." ∉ rest) ∧
      ("." ∈ comps → ∃ k, comps = List.replicate k ".." ++ ["."]) := by
  obtain ⟨t, ht⟩ := dropCommon_snd_suffix bE ["."]
  cases t with
  | cons a t' =>
    rw [List.cons_append] at ht
    have h2 := (List.cons_eq_cons.mp ht).2
    have h3 := List.append_eq_nil.mp h2
    subst hcomps
    rw [h3.2, List.append_nil]
    refine ⟨?_, ⟨(dropCommon bE ["."]).1.length, [], by simp, by simp⟩, ?_⟩
    · intro c hc
      rw [List.eq_of_mem_replicate hc]
      decide
    · intro hdot
      exact absurd (List.eq_of_mem_replicate hdot) (by decide)
  | nil =>
    rw [List.nil_append] at ht
    subst hcomps
    rw [ht]
    refine ⟨?_, ⟨(dropCommon bE ["."]).1.length, ["."], rfl, by decide⟩,
      fun _ => ⟨(dropCommon bE ["."]).1.length, rfl⟩⟩
    intro c hc
    rcases List.mem_append.mp hc with hc | hc
    · rw [List.eq_of_mem_replicate hc]
      decide
    · rw [List.mem_singleton.mp hc]
      decide

/-- Claim C9, counterexample.  The claim says every accepted entry name is
cleaned with no `.` or `..` components, for every root and file argument the
planner accepts.  With root `a` and file `b` — both accepted (`filepath.Rel`
returns no error) — the entry name is `../b`, which contains a `..`
component. -/
theorem claim9_counterexample :
    writeRelFileName ⟨false, ["a"]⟩ ⟨false, ["b"]⟩ = some ["..", "b"] ∧
      ".." ∈ (["..", "b"] : List String) := by
  constructor
  · decide
  · decide

/-- Claim C9, amended.  Every entry name the planner computes is
forward-slash separated and relative to the per-batch root, and contains no
empty component; but it is not fully `.`/`..`-free: all `..` components form
a leading run (they appear when the file argument lies outside the root),
and a `.` component appears only in the degenerate results `.` (file equals
root) and `..*/.` (the cleaned file is `.`). -/
theorem claim9_entry_names (root file : GoPath) (comps : List String)
    (h : writeRelFileName root file = some comps) :
    (∀ c ∈ comps, c ≠ "") ∧
      (∃ k rest, comps = List.replicate k ".." ++ rest ∧ ".." ∉ rest) ∧
      ("." ∈ comps → ∃ k, comps = List.replicate k ".." ++ ["."]) := by
  unfold writeRelFileName relGo at h
  dsimp only at h
  split_ifs at h with h1 h2 h3 h4
  · injection h with h'
    subst h'
    refine ⟨by decide, ⟨0, ["."], by simp, by decide⟩, fun _ => ⟨0, by simp⟩⟩
  · injection h with h'
    exact relShapeDot _ _ h'
  · injection h with h'
    refine relShapeNormal _ _ _ h' ?_
    obtain ⟨j, rest0, hshape, hns, _⟩ :=
      cleanComps_shape (cleanPath file).abs (cleanPath file).comps
    exact ⟨j, rest0, hshape, hns⟩

/-- Claim C9, witness: root `a`, file `a/b.txt` gives the clean name `b.txt`. -/
theorem claim9_witness :
    writeRelFileName ⟨false, ["a"]⟩ ⟨false, ["a", "b.txt"]⟩ = some ["b.txt"] ∧
      ((∀ c ∈ (["b.txt"] : List String), c ≠ "") ∧
        (∃ k rest, (["b.txt"] : List String) = List.replicate k ".." ++ rest ∧ ".." ∉ rest) ∧
        ("." ∈ (["b.txt"] : List String) →
          ∃ k, (["b.txt"] : List String) = List.replicate k ".." ++ ["."])) := by
  have h : writeRelFileName ⟨false, ["a"]⟩ ⟨false, ["a", "b.txt"]⟩ = some ["b.txt"] := by
    decide
  exact ⟨h, claim9_entry_names _ _ _ h⟩

end SoongZip